import Mathlib

/-!
Verification of the parking-enforcement violation engine (src/app.py).

The SQLite `violations` table is modelled as a list of records kept in
insertion order; ids are assigned from an AUTOINCREMENT counter, so the
list is always in ascending-id order and `ORDER BY id DESC LIMIT 1` is the
last matching element of the list. `ORDER BY last_seen DESC` is modelled
as a stable descending sort over the scan (insertion) order.
-/

namespace Parking

/-- Row of the `violations` table (src/app.py, `init_db`). -/
structure ViolationRecord where
  id : Nat
  plate : String
  state : Option String
  vehicle : Option String
  property : Option String
  warning_count : Nat
  first_seen : Option String
  last_seen : String
  status : String
  notes : Option String
  photo : Option String
  officer : String
deriving DecidableEq, Repr

/-- Row of the `properties` table; `tow_after` defaults to 2 and is never
read by any handler. -/
structure PropertyConfig where
  id : Nat
  name : String
  tow_after : Nat
deriving DecidableEq, Repr

/-- The durable store: the `violations` table in insertion (ascending id)
order, the `properties` table, and the AUTOINCREMENT counter for the next
violation id. -/
structure Store where
  violations : List ViolationRecord
  properties : List PropertyConfig
  nextId : Nat
deriving DecidableEq, Repr

/-- A fresh database right after `init_db`: both tables empty. -/
def emptyStore : Store := { violations := [], properties := [], nextId := 1 }

/-- The fields of the citation submission form read by `log_violation`
(`request.form` plus the saved photo filename). -/
structure CitationForm where
  plate : String
  state : Option String
  vehicle : Option String
  property : Option String
  notes : Option String
  photo : Option String
deriving DecidableEq, Repr

/-- Python's `str.upper()` applied per character, as `plate.upper()` does
on the ASCII plates the form accepts. -/
def upper (s : String) : String := String.mk (s.data.map Char.toUpper)

/-- SELECT * FROM violations WHERE plate=? ORDER BY id DESC LIMIT 1 —
with rows in ascending-id order this is the last matching row. -/
def latestForPlate (s : Store) (plate : String) : Option ViolationRecord :=
  (s.violations.filter (fun r => r.plate = plate)).getLast?

/-- The read phase of `log_violation` (src/app.py:144-149): fetch the
latest row for the plate and compute `warnings = row[0] + 1 if row else 1`. -/
def nextWarnings (s : Store) (plate : String) : Nat :=
  match latestForPlate s plate with
  | some r => r.warning_count + 1
  | none => 1

/-- src/app.py:150 — `status = "TOW" if warnings >= 2 else "WARNING"`. -/
def statusFor (warnings : Nat) : String :=
  if 2 ≤ warnings then "TOW" else "WARNING"

/-- The row built by the INSERT in `log_violation` (src/app.py:152-169):
plate uppercased, `first_seen = now if warnings == 1 else None`,
`last_seen = now`. -/
def mkRecord (s : Store) (form : CitationForm) (now off : String)
    (warnings : Nat) : ViolationRecord :=
  { id := s.nextId
    plate := (upper form.plate)
    state := form.state
    vehicle := form.vehicle
    property := form.property
    warning_count := warnings
    first_seen := if warnings = 1 then some now else none
    last_seen := now
    status := statusFor warnings
    notes := form.notes
    photo := form.photo
    officer := off }

/-- INSERT INTO violations: append the new row and advance the
AUTOINCREMENT counter. -/
def insertViolation (s : Store) (r : ViolationRecord) : Store :=
  { s with violations := s.violations ++ [r], nextId := s.nextId + 1 }

/-- The `/log` handler `log_violation` (src/app.py:131-172): uppercase the
plate, read the latest warning count, compute the new count and status,
insert the new row. Returns the inserted row and the updated store. -/
def log_violation (form : CitationForm) (now off : String) (s : Store) :
    ViolationRecord × Store :=
  let warnings := nextWarnings s (upper form.plate)
  let r := mkRecord s form now off warnings
  (r, insertViolation s r)

/-- Lexicographic (bytewise) strict comparison of character lists,
modelling SQLite's BINARY collation on the ASCII timestamp strings. -/
def memcmpLt : List Char → List Char → Bool
  | [], [] => false
  | [], _ :: _ => true
  | _ :: _, [] => false
  | c :: cs, d :: ds =>
    if c.toNat < d.toNat then true
    else if d.toNat < c.toNat then false
    else memcmpLt cs ds

/-- SQLite BINARY collation order on TEXT values. -/
def sqliteLt (a b : String) : Bool := memcmpLt a.data b.data

/-- Ordering of the history query's output: strictly later `last_seen`
first, records with equal `last_seen` in ascending id (scan) order. -/
def histOrder (a b : ViolationRecord) : Prop :=
  sqliteLt b.last_seen a.last_seen = true ∨
    (a.last_seen = b.last_seen ∧ a.id < b.id)

/-- Stable descending insert by `last_seen`: the element being inserted
sinks below a row only when its key is strictly smaller, so it lands in
front of rows with equal keys, and rows already in the list keep their
relative (scan) order. -/
def insertDesc (r : ViolationRecord) : List ViolationRecord → List ViolationRecord
  | [] => [r]
  | x :: xs =>
    if sqliteLt r.last_seen x.last_seen then x :: insertDesc r xs else r :: x :: xs

/-- Stable descending sort by `last_seen`, modelling
ORDER BY last_seen DESC over the insertion-ordered scan. -/
def sortDesc : List ViolationRecord → List ViolationRecord
  | [] => []
  | x :: xs => insertDesc x (sortDesc xs)

/-- SELECT * FROM violations WHERE plate=? ORDER BY id DESC LIMIT 1, with
the searched plate uppercased first (src/app.py:116-121). -/
def getLatest (s : Store) (plateRaw : String) : Option ViolationRecord :=
  (s.violations.filter (fun r => r.plate = (upper plateRaw))).getLast?

/-- SELECT * FROM violations WHERE plate=? ORDER BY last_seen DESC, with
the searched plate uppercased first (src/app.py:122-125). -/
def getHistory (s : Store) (plateRaw : String) : List ViolationRecord :=
  sortDesc (s.violations.filter (fun r => r.plate = (upper plateRaw)))

/-- The dashboard handler `index` (src/app.py:110-126): on GET (no posted
plate) record is None and history empty; on POST it runs the two SELECT
queries. It performs no writes, so the store is returned unchanged. -/
def index (plateForm : Option String) (s : Store) :
    (Option ViolationRecord × List ViolationRecord) × Store :=
  match plateForm with
  | none => ((none, []), s)
  | some p => ((getLatest s p, getHistory s p), s)

/-- A paragraph of the generated PDF: title style or normal style. -/
inductive Par where
  | title : String → Par
  | normal : String → Par
deriving DecidableEq, Repr

/-- The `/tow/<plate>` handler `tow_report` (src/app.py:177-192): builds a
document of exactly four paragraphs from the plate, the logged-in officer
and the current time. It never reads the store. -/
def tow_report (plate off now : String) (_s : Store) : List Par :=
  [Par.title "TOW AUTHORIZATION",
   Par.normal ("Plate: " ++ plate),
   Par.normal ("Authorized by: " ++ off),
   Par.normal ("Date: " ++ now)]

/-- One citation submission: the posted form, the handler's `now`
timestamp, and the authenticated officer's username. -/
structure Submission where
  form : CitationForm
  now : String
  officer : String
deriving DecidableEq, Repr

/-- Run a sequence of citation submissions against the store. -/
def runSubs (subs : List Submission) (s : Store) : Store :=
  subs.foldl (fun st sub => (log_violation sub.form sub.now sub.officer st).2) s

/-- Run a sequence of citation submissions, collecting the inserted
records in submission order. -/
def runCollect : List Submission → Store → List ViolationRecord × Store
  | [], s => ([], s)
  | sub :: rest, s =>
    let step := log_violation sub.form sub.now sub.officer s
    let tail := runCollect rest step.2
    (step.1 :: tail.1, tail.2)

/-- In-flight state of two concurrent submissions A and B against the
shared store: each pend field holds the warning count that submission
computed from its SELECT, between its read and its INSERT. -/
structure ConcState where
  store : Store
  pendA : Option Nat
  pendB : Option Nat
deriving DecidableEq, Repr

/-- The atomic store operations of `log_violation` under concurrency: the
SELECT that computes `warnings` (read) and the INSERT of the new row
(write). Nothing in the code guards the gap between a submission's read
and its write. -/
inductive Action where
  | readA | writeA | readB | writeB
deriving DecidableEq, Repr

/-- Execute one atomic step of one of the two concurrent submissions. A
write before its own read does nothing. -/
def stepAction (fA fB : Submission) (st : ConcState) : Action → ConcState
  | Action.readA =>
    { st with pendA := some (nextWarnings st.store (upper fA.form.plate)) }
  | Action.writeA =>
    match st.pendA with
    | some w =>
      { st with
        store := insertViolation st.store (mkRecord st.store fA.form fA.now fA.officer w)
        pendA := none }
    | none => st
  | Action.readB =>
    { st with pendB := some (nextWarnings st.store (upper fB.form.plate)) }
  | Action.writeB =>
    match st.pendB with
    | some w =>
      { st with
        store := insertViolation st.store (mkRecord st.store fB.form fB.now fB.officer w)
        pendB := none }
    | none => st

/-- Run an interleaving (schedule) of the two submissions' atomic steps. -/
def runSched (fA fB : Submission) (sched : List Action) (st : ConcState) : ConcState :=
  sched.foldl (stepAction fA fB) st

/-- Both submissions still pending: the initial concurrent state. -/
def initConc (s : Store) : ConcState := { store := s, pendA := none, pendB := none }

/-- Concrete citation form used by the witnesses. -/
def wForm : CitationForm :=
  { plate := "abc123", state := some "CA", vehicle := some "sedan"
    property := some "Lot 4", notes := none, photo := none }

/-- Concrete submission form whose plate is the empty string. -/
def emptyPlateForm : CitationForm :=
  { plate := "", state := none, vehicle := none
    property := none, notes := none, photo := none }

/-- Two concrete same-plate submissions used by the witnesses. -/
def wSub1 : Submission := { form := wForm, now := "2024-05-01 10:00", officer := "smith" }

/-- Second witness submission for the same plate, one minute later. -/
def wSub2 : Submission := { form := wForm, now := "2024-05-01 10:01", officer := "jones" }

/-- Third witness submission for the same plate, another minute later. -/
def wSub3 : Submission := { form := wForm, now := "2024-05-01 10:02", officer := "smith" }

/-- The record the first witness submission inserts into the empty store. -/
def wRec1 : ViolationRecord :=
  (log_violation wSub1.form wSub1.now wSub1.officer emptyStore).1

/-! ### Basic lemmas about the escalation step -/

theorem log_violation_fst (form : CitationForm) (now off : String) (s : Store) :
    (log_violation form now off s).1 =
      mkRecord s form now off (nextWarnings s (upper form.plate)) := rfl

theorem log_violation_snd (form : CitationForm) (now off : String) (s : Store) :
    (log_violation form now off s).2 =
      insertViolation s (log_violation form now off s).1 := rfl

theorem latestForPlate_insert (s : Store) (r : ViolationRecord) (p : String) :
    latestForPlate (insertViolation s r) p =
      if r.plate = p then some r else latestForPlate s p := by
  unfold latestForPlate insertViolation
  by_cases h : r.plate = p
  · simp [List.filter_append, h, List.getLast?_concat]
  · simp [List.filter_append, h]

theorem nextWarnings_insert (s : Store) (r : ViolationRecord) (p : String) :
    nextWarnings (insertViolation s r) p =
      if r.plate = p then r.warning_count + 1 else nextWarnings s p := by
  unfold nextWarnings
  rw [latestForPlate_insert]
  by_cases h : r.plate = p <;> simp [h]

theorem nextWarnings_pos (s : Store) (p : String) : 1 ≤ nextWarnings s p := by
  unfold nextWarnings
  cases latestForPlate s p <;> simp

theorem statusFor_eq_tow_iff (w : Nat) : statusFor w = "TOW" ↔ 2 ≤ w := by
  unfold statusFor
  by_cases h : 2 ≤ w
  · simp [h]
  · simp only [h, if_false, iff_false]
    intro hcontra
    exact absurd hcontra (by decide)

theorem runCollect_cons (sub : Submission) (rest : List Submission) (s : Store) :
    runCollect (sub :: rest) s =
      ((log_violation sub.form sub.now sub.officer s).1 ::
        (runCollect rest (log_violation sub.form sub.now sub.officer s).2).1,
       (runCollect rest (log_violation sub.form sub.now sub.officer s).2).2) := rfl

theorem runCollect_length (subs : List Submission) (s : Store) :
    (runCollect subs s).1.length = subs.length := by
  induction subs generalizing s with
  | nil => rfl
  | cons sub rest ih => simp [runCollect_cons, ih]

theorem mkRecord_warning_count (s : Store) (form : CitationForm) (now off : String)
    (w : Nat) : (mkRecord s form now off w).warning_count = w := rfl

theorem mkRecord_status (s : Store) (form : CitationForm) (now off : String)
    (w : Nat) : (mkRecord s form now off w).status = statusFor w := rfl

theorem mkRecord_plate (s : Store) (form : CitationForm) (now off : String)
    (w : Nat) : (mkRecord s form now off w).plate = upper form.plate := rfl

theorem nextWarnings_after_log (sub : Submission) (s : Store) (P : String)
    (hplate : upper sub.form.plate = P) :
    nextWarnings (log_violation sub.form sub.now sub.officer s).2 P =
      (log_violation sub.form sub.now sub.officer s).1.warning_count + 1 := by
  rw [log_violation_snd, nextWarnings_insert]
  rw [log_violation_fst, mkRecord_plate, hplate]
  simp

theorem runCollect_counts (P : String) (subs : List Submission) (s : Store) (c : Nat)
    (hall : ∀ sub ∈ subs, upper sub.form.plate = P)
    (hc : nextWarnings s P = c) :
    ∀ k (hk : k < (runCollect subs s).1.length),
      ((runCollect subs s).1.get ⟨k, hk⟩).warning_count = c + k ∧
      ((runCollect subs s).1.get ⟨k, hk⟩).status = statusFor (c + k) := by
  induction subs generalizing s c with
  | nil => intro k hk; simp [runCollect] at hk
  | cons sub rest ih =>
    intro k hk
    have hplate : upper sub.form.plate = P := hall sub (by simp)
    have hwc : (log_violation sub.form sub.now sub.officer s).1.warning_count = c := by
      rw [log_violation_fst, mkRecord_warning_count, hplate, hc]
    have hst : (log_violation sub.form sub.now sub.officer s).1.status = statusFor c := by
      rw [log_violation_fst, mkRecord_status, hplate, hc]
    have hnext : nextWarnings (log_violation sub.form sub.now sub.officer s).2 P = c + 1 := by
      rw [nextWarnings_after_log sub s P hplate, hwc]
    have hall' : ∀ x ∈ rest, upper x.form.plate = P := fun x hx => hall x (by simp [hx])
    cases k with
    | zero => simpa [runCollect_cons] using ⟨hwc, hst⟩
    | succ k =>
      have hk' : k < (runCollect rest (log_violation sub.form sub.now sub.officer s).2).1.length := by
        simpa [runCollect_cons] using hk
      obtain ⟨h1, h2⟩ := ih (log_violation sub.form sub.now sub.officer s).2 (c + 1) hall' hnext k hk'
      have harith : c + 1 + k = c + (k + 1) := by omega
      constructor
      · simpa [runCollect_cons, ← harith] using h1
      · simpa [runCollect_cons, ← harith] using h2

theorem runSubs_cons (sub : Submission) (rest : List Submission) (s : Store) :
    runSubs (sub :: rest) s =
      runSubs rest (log_violation sub.form sub.now sub.officer s).2 := rfl

theorem runSubs_preserves (p : ViolationRecord → Prop)
    (hnew : ∀ (form : CitationForm) (now off : String) (s : Store),
      p (log_violation form now off s).1) :
    ∀ (subs : List Submission) (s : Store),
      (∀ r ∈ s.violations, p r) →
      ∀ r ∈ (runSubs subs s).violations, p r := by
  intro subs
  induction subs with
  | nil => intro s hs r hr; exact hs r hr
  | cons sub rest ih =>
    intro s hs r hr
    rw [runSubs_cons] at hr
    refine ih _ ?_ r hr
    intro r2 hr2
    have hr3 : r2 ∈ s.violations ++ [(log_violation sub.form sub.now sub.officer s).1] := hr2
    rcases List.mem_append.mp hr3 with h | h
    · exact hs r2 h
    · have heq : r2 = (log_violation sub.form sub.now sub.officer s).1 := by simpa using h
      rw [heq]; exact hnew sub.form sub.now sub.officer s

theorem mem_of_getLast?_eq {α : Type} {l : List α} {a : α}
    (h : l.getLast? = some a) : a ∈ l := by
  induction l with
  | nil => cases h
  | cons x xs ih =>
    cases xs with
    | nil =>
      simp only [List.getLast?_singleton, Option.some_inj] at h
      simp [h]
    | cons y ys =>
      rw [List.getLast?_cons_cons] at h
      exact List.mem_cons_of_mem x (ih h)

theorem tow_after_existing (P : String) :
    ∀ (subs : List Submission) (s : Store),
      (∀ r ∈ s.violations, 1 ≤ r.warning_count) →
      (∃ r ∈ s.violations, r.plate = P) →
      ∀ rec ∈ (runCollect subs s).1, rec.plate = P → rec.status = "TOW" := by
  intro subs
  induction subs with
  | nil => intro s _ _ rec hrec; simp [runCollect] at hrec
  | cons sub rest ih =>
    intro s hwc hex rec hrec hrecP
    rw [runCollect_cons] at hrec
    rcases List.mem_cons.mp hrec with heq | htail
    · subst heq
      obtain ⟨r0, hr0, hr0P⟩ := hex
      have hfilter : r0 ∈ s.violations.filter (fun r => r.plate = P) :=
        List.mem_filter.mpr ⟨hr0, by simp [hr0P]⟩
      cases hlast : (s.violations.filter (fun r => r.plate = P)).getLast? with
      | none =>
        rw [List.getLast?_eq_none_iff.mp hlast] at hfilter
        cases hfilter
      | some rlast =>
        have hrlast_wc : 1 ≤ rlast.warning_count :=
          hwc rlast (List.mem_filter.mp (mem_of_getLast?_eq hlast)).1
        have hplate : upper sub.form.plate = P := hrecP
        have hnw : nextWarnings s P = rlast.warning_count + 1 := by
          unfold nextWarnings latestForPlate
          rw [hlast]
        rw [log_violation_fst, mkRecord_status, hplate, hnw]
        unfold statusFor
        have h2 : 2 ≤ rlast.warning_count + 1 := by omega
        simp [h2]
    · refine ih (log_violation sub.form sub.now sub.officer s).2 ?_ ?_ rec htail hrecP
      · intro r2 hr2
        have hr3 : r2 ∈ s.violations ++ [(log_violation sub.form sub.now sub.officer s).1] := hr2
        rcases List.mem_append.mp hr3 with h | h
        · exact hwc r2 h
        · have heq : r2 = (log_violation sub.form sub.now sub.officer s).1 := by simpa using h
          rw [heq, log_violation_fst, mkRecord_warning_count]
          exact nextWarnings_pos s (upper sub.form.plate)
      · obtain ⟨r0, hr0, hr0P⟩ := hex
        exact ⟨r0, List.mem_append_left _ hr0, hr0P⟩

theorem runSched_serial_ab (fA fB : Submission) (s : Store) :
    (runSched fA fB [Action.readA, Action.writeA, Action.readB, Action.writeB]
        (initConc s)).store =
      (log_violation fB.form fB.now fB.officer
        (log_violation fA.form fA.now fA.officer s).2).2 := rfl

theorem runSched_serial_ba (fA fB : Submission) (s : Store) :
    (runSched fA fB [Action.readB, Action.writeB, Action.readA, Action.writeA]
        (initConc s)).store =
      (log_violation fA.form fA.now fA.officer
        (log_violation fB.form fB.now fB.officer s).2).2 := rfl

theorem two_serial_counts (f g : Submission) (P : String)
    (hf : upper f.form.plate = P) (hg : upper g.form.plate = P) :
    ((log_violation g.form g.now g.officer
        (log_violation f.form f.now f.officer emptyStore).2).2.violations).map
      (fun r => r.warning_count) = [1, 2] := by
  have h1 : nextWarnings emptyStore P = 1 := rfl
  have hfw : (log_violation f.form f.now f.officer emptyStore).1.warning_count = 1 := by
    rw [log_violation_fst, mkRecord_warning_count, hf, h1]
  have hgw : (log_violation g.form g.now g.officer
      (log_violation f.form f.now f.officer emptyStore).2).1.warning_count = 2 := by
    rw [log_violation_fst, mkRecord_warning_count, hg,
      nextWarnings_after_log f emptyStore P hf, hfw]
  have hlist : (log_violation g.form g.now g.officer
      (log_violation f.form f.now f.officer emptyStore).2).2.violations =
      [(log_violation f.form f.now f.officer emptyStore).1,
       (log_violation g.form g.now g.officer
         (log_violation f.form f.now f.officer emptyStore).2).1] := rfl
  rw [hlist]
  simp [hfw, hgw]

/-! ### The BINARY collation is a strict linear order -/

theorem char_toNat_inj {c d : Char} (h : c.toNat = d.toNat) : c = d :=
  Char.ext (UInt32.ext h)

theorem memcmpLt_irrefl : ∀ l : List Char, memcmpLt l l = false
  | [] => rfl
  | c :: cs => by
    simp only [memcmpLt, Nat.lt_irrefl, if_false]
    exact memcmpLt_irrefl cs

theorem memcmpLt_total (a : List Char) : ∀ b, memcmpLt a b = false →
    memcmpLt b a = true ∨ a = b := by
  induction a with
  | nil =>
    intro b h
    cases b with
    | nil => exact Or.inr rfl
    | cons d ds => simp [memcmpLt] at h
  | cons c cs ih =>
    intro b h
    cases b with
    | nil => exact Or.inl rfl
    | cons d ds =>
      by_cases h1 : c.toNat < d.toNat
      · rw [memcmpLt, if_pos h1] at h
        cases h
      · by_cases h2 : d.toNat < c.toNat
        · exact Or.inl (by rw [memcmpLt, if_pos h2])
        · have hcd : c = d :=
            char_toNat_inj (Nat.le_antisymm (Nat.le_of_not_lt h2) (Nat.le_of_not_lt h1))

          rw [memcmpLt, if_neg h1, if_neg h2] at h
          rcases ih ds h with h3 | h3
          · exact Or.inl (by rw [memcmpLt, if_neg h2, if_neg h1]; exact h3)
          · exact Or.inr (by rw [hcd, h3])

theorem memcmpLt_trans (a : List Char) : ∀ b c, memcmpLt a b = true →
    memcmpLt b c = true → memcmpLt a c = true := by
  induction a with
  | nil =>
    intro b c hab hbc
    cases c with
    | nil =>
      cases b with
      | nil => exact hbc
      | cons y ys => simp [memcmpLt] at hbc
    | cons z zs => rfl
  | cons x xs ih =>
    intro b c hab hbc
    cases b with
    | nil => simp [memcmpLt] at hab
    | cons y ys =>
      cases c with
      | nil => simp [memcmpLt] at hbc
      | cons z zs =>
        by_cases h1 : x.toNat < y.toNat
        · by_cases h2 : y.toNat < z.toNat
          · rw [memcmpLt, if_pos (Nat.lt_trans h1 h2)]
          · by_cases h3 : z.toNat < y.toNat
            · rw [memcmpLt, if_neg h2, if_pos h3] at hbc
              cases hbc
            · have hyz : y.toNat = z.toNat :=
                Nat.le_antisymm (Nat.le_of_not_lt h3) (Nat.le_of_not_lt h2)
              rw [memcmpLt, if_pos (hyz ▸ h1)]
        · by_cases h4 : y.toNat < x.toNat
          · rw [memcmpLt, if_neg h1, if_pos h4] at hab
            cases hab
          · have hxy : x.toNat = y.toNat :=
              Nat.le_antisymm (Nat.le_of_not_lt h4) (Nat.le_of_not_lt h1)
            rw [memcmpLt, if_neg h1, if_neg h4] at hab
            by_cases h2 : y.toNat < z.toNat
            · rw [memcmpLt, if_pos (hxy.symm ▸ h2)]
            · by_cases h3 : z.toNat < y.toNat
              · rw [memcmpLt, if_neg h2, if_pos h3] at hbc
                cases hbc
              · have hyz : y.toNat = z.toNat :=
                  Nat.le_antisymm (Nat.le_of_not_lt h3) (Nat.le_of_not_lt h2)
                rw [memcmpLt, if_neg h2, if_neg h3] at hbc
                have h5 : ¬ x.toNat < z.toNat := by rw [← hyz, ← hxy]; exact Nat.lt_irrefl _
                have h6 : ¬ z.toNat < x.toNat := by rw [← hyz, ← hxy]; exact Nat.lt_irrefl _
                rw [memcmpLt, if_neg h5, if_neg h6]
                exact ih ys zs hab hbc

theorem memcmpLt_asymm (a b : List Char) (h : memcmpLt a b = true) :
    memcmpLt b a = false := by
  cases hba : memcmpLt b a with
  | false => rfl
  | true =>
    have h2 := memcmpLt_trans a b a h hba
    rw [memcmpLt_irrefl] at h2
    cases h2

theorem sqliteLt_irrefl (a : String) : sqliteLt a a = false := memcmpLt_irrefl a.data

theorem sqliteLt_total (a b : String) (h : sqliteLt a b = false) :
    sqliteLt b a = true ∨ a = b := by
  rcases memcmpLt_total a.data b.data h with h1 | h1
  · exact Or.inl h1
  · refine Or.inr ?_
    cases a
    cases b
    exact congrArg String.mk h1

theorem sqliteLt_trans (a b c : String) (hab : sqliteLt a b = true)
    (hbc : sqliteLt b c = true) : sqliteLt a c = true :=
  memcmpLt_trans a.data b.data c.data hab hbc

theorem sqliteLt_asymm (a b : String) (h : sqliteLt a b = true) :
    sqliteLt b a = false :=
  memcmpLt_asymm a.data b.data h

/-! ### The history sort is a stable descending sort -/

theorem insertDesc_perm (r : ViolationRecord) (l : List ViolationRecord) :
    (insertDesc r l).Perm (r :: l) := by
  induction l with
  | nil => exact List.Perm.refl _
  | cons x xs ih =>
    unfold insertDesc
    by_cases h : sqliteLt r.last_seen x.last_seen = true
    · rw [if_pos h]
      exact (ih.cons x).trans (List.Perm.swap r x xs)
    · rw [if_neg h]

theorem sortDesc_perm (l : List ViolationRecord) : (sortDesc l).Perm l := by
  induction l with
  | nil => exact List.Perm.refl _
  | cons x xs ih => exact (insertDesc_perm x (sortDesc xs)).trans (ih.cons x)

theorem mem_insertDesc {z r : ViolationRecord} {l : List ViolationRecord}
    (h : z ∈ insertDesc r l) : z = r ∨ z ∈ l := by
  simpa using (insertDesc_perm r l).mem_iff.mp h

theorem insertDesc_pairwise (r : ViolationRecord) (l : List ViolationRecord)
    (h1 : l.Pairwise histOrder) (h2 : ∀ y ∈ l, r.id < y.id) :
    (insertDesc r l).Pairwise histOrder := by
  induction l with
  | nil => exact List.pairwise_singleton _ _
  | cons x xs ih =>
    rw [List.pairwise_cons] at h1
    obtain ⟨hx, hxs⟩ := h1
    unfold insertDesc
    by_cases hcmp : sqliteLt r.last_seen x.last_seen = true
    · rw [if_pos hcmp, List.pairwise_cons]
      constructor
      · intro z hz
        rcases mem_insertDesc hz with rfl | hzxs
        · exact Or.inl hcmp
        · exact hx z hzxs
      · exact ih hxs (fun y hy => h2 y (List.mem_cons_of_mem _ hy))
    · have hcmp2 : sqliteLt r.last_seen x.last_seen = false := by
        cases hc : sqliteLt r.last_seen x.last_seen
        · rfl
        · exact absurd hc hcmp
      rw [if_neg hcmp, List.pairwise_cons]
      refine ⟨?_, List.pairwise_cons.mpr ⟨hx, hxs⟩⟩
      intro z hz
      rcases List.mem_cons.mp hz with rfl | hzxs
      · rcases sqliteLt_total _ _ hcmp2 with hlt | heq
        · exact Or.inl hlt
        · exact Or.inr ⟨heq, h2 z (List.mem_cons_self _ _)⟩
      · have hxz := hx z hzxs
        rcases sqliteLt_total _ _ hcmp2 with hxr | hrx_eq
        · rcases hxz with hzx | ⟨hxzeq, _⟩
          · exact Or.inl (sqliteLt_trans _ _ _ hzx hxr)
          · exact Or.inl (hxzeq ▸ hxr)
        · rcases hxz with hzx | ⟨hxzeq, _⟩
          · exact Or.inl (hrx_eq.symm ▸ hzx)
          · exact Or.inr ⟨hrx_eq.trans hxzeq, h2 z (List.mem_cons_of_mem x hzxs)⟩

theorem sortDesc_pairwise (l : List ViolationRecord)
    (h : l.Pairwise (fun a b => a.id < b.id)) :
    (sortDesc l).Pairwise histOrder := by
  induction l with
  | nil => exact List.Pairwise.nil
  | cons x xs ih =>
    rw [List.pairwise_cons] at h
    obtain ⟨hx, hxs⟩ := h
    refine insertDesc_pairwise x (sortDesc xs) (ih hxs) ?_
    intro y hy
    exact hx y ((sortDesc_perm xs).mem_iff.mp hy)

theorem runSubs_ids (subs : List Submission) (s : Store)
    (hbound : ∀ r ∈ s.violations, r.id < s.nextId)
    (hpair : s.violations.Pairwise (fun a b => a.id < b.id)) :
    (∀ r ∈ (runSubs subs s).violations, r.id < (runSubs subs s).nextId) ∧
    (runSubs subs s).violations.Pairwise (fun a b => a.id < b.id) := by
  induction subs generalizing s with
  | nil => exact ⟨hbound, hpair⟩
  | cons sub rest ih =>
    rw [runSubs_cons]
    apply ih
    · intro r hr
      have hr2 : r ∈ s.violations ++ [(log_violation sub.form sub.now sub.officer s).1] := hr
      show r.id < s.nextId + 1
      rcases List.mem_append.mp hr2 with h | h
      · have := hbound r h
        omega
      · have heq : r = (log_violation sub.form sub.now sub.officer s).1 := by simpa using h
        rw [heq]
        show s.nextId < s.nextId + 1
        omega
    · show (s.violations ++
        [(log_violation sub.form sub.now sub.officer s).1]).Pairwise (fun a b => a.id < b.id)
      rw [List.pairwise_append]
      refine ⟨hpair, List.pairwise_singleton _ _, ?_⟩
      intro a ha b hb
      have hb2 : b = (log_violation sub.form sub.now sub.officer s).1 := by simpa using hb
      rw [hb2]
      show a.id < s.nextId
      exact hbound a ha

/-! ### Claim theorems -/

/-- C1: starting from a store with no records for the plate, the record
inserted by the Nth of a sequence of same-plate submissions (N = k + 1,
counting from k = 0) has warning count N, with status WARNING exactly
when N = 1 and TOW for every N ≥ 2. -/
theorem nth_citation_count_and_status (subs : List Submission) (P : String) (s : Store)
    (hall : ∀ sub ∈ subs, upper sub.form.plate = P)
    (h0 : s.violations.filter (fun r => r.plate = P) = []) :
    (runCollect subs s).1.length = subs.length ∧
    ∀ k (hk : k < (runCollect subs s).1.length),
      ((runCollect subs s).1.get ⟨k, hk⟩).warning_count = k + 1 ∧
      ((runCollect subs s).1.get ⟨k, hk⟩).status =
        (if k + 1 = 1 then "WARNING" else "TOW") := by
  have h1 : nextWarnings s P = 1 := by
    unfold nextWarnings latestForPlate
    rw [h0]
    rfl
  refine ⟨runCollect_length subs s, ?_⟩
  intro k hk
  obtain ⟨hwc, hst⟩ := runCollect_counts P subs s 1 hall h1 k hk
  constructor
  · rw [hwc]; omega
  · rw [hst]
    unfold statusFor
    by_cases hk0 : k = 0
    · subst hk0; simp
    · have h2 : 2 ≤ 1 + k := by omega
      have h3 : ¬ (k + 1 = 1) := by omega
      simp [h2, h3]

/-- Witness for C1: two submissions for plate abc123 against the fresh
store give counts 1 then 2, statuses WARNING then TOW. -/
theorem nth_citation_count_and_status_witness :
    (∀ sub ∈ [wSub1, wSub2], upper sub.form.plate = "ABC123") ∧
    emptyStore.violations.filter (fun r => r.plate = "ABC123") = [] ∧
    ((runCollect [wSub1, wSub2] emptyStore).1.length =
        ([wSub1, wSub2] : List Submission).length ∧
      ∀ k (hk : k < (runCollect [wSub1, wSub2] emptyStore).1.length),
        ((runCollect [wSub1, wSub2] emptyStore).1.get ⟨k, hk⟩).warning_count = k + 1 ∧
        ((runCollect [wSub1, wSub2] emptyStore).1.get ⟨k, hk⟩).status =
          (if k + 1 = 1 then "WARNING" else "TOW")) :=
  ⟨by decide, by decide,
   nth_citation_count_and_status [wSub1, wSub2] "ABC123" emptyStore
     (by decide) (by decide)⟩

/-- C2: the status of every record inserted by a citation submission is
TOW exactly when its warning count reaches the global constant 2, and the
inserted record is independent of the `properties` table — hence of every
configured `tow_after` value. -/
theorem status_global_threshold (form : CitationForm) (now off : String)
    (s : Store) (ps : List PropertyConfig) :
    ((log_violation form now off s).1.status = "TOW" ↔
      2 ≤ (log_violation form now off s).1.warning_count) ∧
    (log_violation form now off { s with properties := ps }).1 =
      (log_violation form now off s).1 := by
  constructor
  · exact statusFor_eq_tow_iff (nextWarnings s (upper form.plate))
  · rfl

/-- C3: in every store reachable by citation submissions from the fresh
store, a record's first_seen field carries the record's own submission
timestamp exactly when its warning count is 1, and is null otherwise. -/
theorem first_seen_iff_first (subs : List Submission) :
    ∀ rec ∈ (runSubs subs emptyStore).violations,
      (rec.warning_count = 1 → rec.first_seen = some rec.last_seen) ∧
      (rec.warning_count ≠ 1 → rec.first_seen = none) := by
  refine runSubs_preserves _ ?_ subs emptyStore ?_
  · intro form now off s
    rw [log_violation_fst]
    by_cases hw : nextWarnings s (upper form.plate) = 1
    · simp [mkRecord, hw]
    · simp [mkRecord, hw]
  · intro r hr
    cases hr

/-- Witness for C3: the first record for plate abc123 carries its own
timestamp as first_seen. -/
theorem first_seen_iff_first_witness :
    wRec1 ∈ (runSubs [wSub1] emptyStore).violations ∧
    ((wRec1.warning_count = 1 → wRec1.first_seen = some wRec1.last_seen) ∧
     (wRec1.warning_count ≠ 1 → wRec1.first_seen = none)) :=
  ⟨by decide, first_seen_iff_first [wSub1] wRec1 (by decide)⟩

/-- C4 (code behavior at the failing input): a submission whose plate is
the empty string is not rejected — `log_violation` inserts a record with
plate "", warning count 1 and status WARNING, and the store changes. -/
theorem empty_plate_is_recorded :
    (log_violation emptyPlateForm "2024-05-01 10:00" "smith" emptyStore).2.violations =
      [(log_violation emptyPlateForm "2024-05-01 10:00" "smith" emptyStore).1] ∧
    (log_violation emptyPlateForm "2024-05-01 10:00" "smith" emptyStore).1.plate = "" ∧
    (log_violation emptyPlateForm "2024-05-01 10:00" "smith" emptyStore).1.warning_count = 1 ∧
    (log_violation emptyPlateForm "2024-05-01 10:00" "smith" emptyStore).1.status = "WARNING" ∧
    (log_violation emptyPlateForm "2024-05-01 10:00" "smith" emptyStore).2 ≠ emptyStore := by
  decide

/-- C5: on every store reachable by citation submissions from the fresh
store, the history query returns exactly the plate's records, in
non-increasing last_seen order (BINARY collation), and records sharing a
last_seen timestamp appear in ascending id — that is, insertion — order. -/
theorem history_sorted_and_stable (subs : List Submission) (p : String) :
    (getHistory (runSubs subs emptyStore) p).Perm
      ((runSubs subs emptyStore).violations.filter (fun r => r.plate = upper p)) ∧
    (getHistory (runSubs subs emptyStore) p).Pairwise
      (fun a b => sqliteLt a.last_seen b.last_seen = false) ∧
    (getHistory (runSubs subs emptyStore) p).Pairwise
      (fun a b => a.last_seen = b.last_seen → a.id < b.id) := by
  have hids : (runSubs subs emptyStore).violations.Pairwise (fun a b => a.id < b.id) :=
    (runSubs_ids subs emptyStore (by intro r hr; cases hr) List.Pairwise.nil).2
  have hfilter : ((runSubs subs emptyStore).violations.filter
      (fun r => r.plate = upper p)).Pairwise (fun a b => a.id < b.id) :=
    List.Pairwise.sublist (List.filter_sublist _) hids
  have hsorted := sortDesc_pairwise _ hfilter
  refine ⟨sortDesc_perm _, ?_, ?_⟩
  · refine hsorted.imp ?_
    intro a b hab
    rcases hab with hlt | ⟨heq, _⟩
    · exact sqliteLt_asymm _ _ hlt
    · rw [heq]
      exact sqliteLt_irrefl _
  · refine hsorted.imp ?_
    intro a b hab heq
    rcases hab with hlt | ⟨_, hid⟩
    · rw [heq, sqliteLt_irrefl] at hlt
      cases hlt
    · exact hid

/-- C6: a plate with no stored violation records gets an empty history
and no latest record from the two dashboard queries; neither query can
fail. -/
theorem no_records_empty_history (s : Store) (p : String)
    (h : s.violations.filter (fun r => r.plate = upper p) = []) :
    getHistory s p = [] ∧ getLatest s p = none := by
  unfold getHistory getLatest
  rw [h]
  exact ⟨rfl, rfl⟩

/-- Witness for C6 at the spec's own scenario: plate ZZZ999 on a fresh
store. -/
theorem no_records_empty_history_witness :
    emptyStore.violations.filter (fun r => r.plate = upper "ZZZ999") = [] ∧
    (getHistory emptyStore "ZZZ999" = [] ∧ getLatest emptyStore "ZZZ999" = none) :=
  ⟨rfl, no_records_empty_history emptyStore "ZZZ999" rfl⟩

/-- C7: a citation submission only appends its single new record, leaving
every pre-existing record in place, and the dashboard queries return the
store unchanged. -/
theorem append_only_and_read_only (form : CitationForm) (now off : String)
    (s : Store) (plateForm : Option String) :
    (log_violation form now off s).2.violations =
      s.violations ++ [(log_violation form now off s).1] ∧
    (index plateForm s).2 = s := by
  refine ⟨rfl, ?_⟩
  cases plateForm <;> rfl

/-- C8: the tow report never consults the store — it is produced for
every plate whatever the stored records or statuses — and its content is
exactly the four fields title, plate, issuing officer and timestamp. -/
theorem tow_report_static (plate off now : String) (s1 s2 : Store) :
    tow_report plate off now s1 = tow_report plate off now s2 ∧
    tow_report plate off now s1 =
      [Par.title "TOW AUTHORIZATION",
       Par.normal ("Plate: " ++ plate),
       Par.normal ("Authorized by: " ++ off),
       Par.normal ("Date: " ++ now)] ∧
    (tow_report plate off now s1).length = 4 :=
  ⟨rfl, rfl, rfl⟩

/-- C10: once some record for a plate has status TOW, every record a
later sequential submission inserts for that plate also has status TOW:
the new count is the previous count plus one and the threshold test
warning_count ≥ 2 is monotone. -/
theorem tow_status_persists (subs : List Submission) (s : Store) (P : String)
    (hwc : ∀ r ∈ s.violations, 1 ≤ r.warning_count)
    (htow : ∃ r ∈ s.violations, r.plate = P ∧ r.status = "TOW") :
    ∀ rec ∈ (runCollect subs s).1, rec.plate = P → rec.status = "TOW" := by
  obtain ⟨r0, hr0, hr0P, _⟩ := htow
  exact tow_after_existing P subs s hwc ⟨r0, hr0, hr0P⟩

/-- Witness for C10: after two citations plate ABC123 holds a TOW record,
and a third citation for it is again TOW. -/
theorem tow_status_persists_witness :
    (∀ r ∈ (runSubs [wSub1, wSub2] emptyStore).violations, 1 ≤ r.warning_count) ∧
    (∃ r ∈ (runSubs [wSub1, wSub2] emptyStore).violations,
      r.plate = "ABC123" ∧ r.status = "TOW") ∧
    (∀ rec ∈ (runCollect [wSub3] (runSubs [wSub1, wSub2] emptyStore)).1,
      rec.plate = "ABC123" → rec.status = "TOW") :=
  ⟨by decide, by decide,
   tow_status_persists [wSub3] (runSubs [wSub1, wSub2] emptyStore) "ABC123"
     (by decide) (by decide)⟩

/-- C9 (counterexample): scheduling both SELECTs before either INSERT,
two concurrent submissions for the same plate both insert warning count 1
— exactly the lost update the claim says never happens. -/
theorem interleaved_reads_lose_update :
    (runSched wSub1 wSub2 [Action.readA, Action.readB, Action.writeA, Action.writeB]
        (initConc emptyStore)).store.violations.map
      (fun r => r.warning_count) = [1, 1] := by
  decide

/-- C9 (amended): two submissions for the same plate against an empty
history yield warning counts exactly 1 and 2 when one completes before
the other begins (the serial schedules); the unguarded read-then-write
guarantees nothing more, since interleaving the reads loses an update. -/
theorem serial_schedules_yield_one_two (fA fB : Submission) (P : String)
    (hA : upper fA.form.plate = P) (hB : upper fB.form.plate = P)
    (sched : List Action)
    (hs : sched = [Action.readA, Action.writeA, Action.readB, Action.writeB] ∨
      sched = [Action.readB, Action.writeB, Action.readA, Action.writeA]) :
    (runSched fA fB sched (initConc emptyStore)).store.violations.map
      (fun r => r.warning_count) = [1, 2] := by
  rcases hs with h | h
  · subst h
    rw [runSched_serial_ab]
    exact two_serial_counts fA fB P hA hB
  · subst h
    rw [runSched_serial_ba]
    exact two_serial_counts fB fA P hB hA

/-- Witness for the amended C9: running submission A to completion before
submission B gives warning counts 1 then 2. -/
theorem serial_schedules_yield_one_two_witness :
    upper wSub1.form.plate = "ABC123" ∧
    upper wSub2.form.plate = "ABC123" ∧
    ([Action.readA, Action.writeA, Action.readB, Action.writeB] =
        [Action.readA, Action.writeA, Action.readB, Action.writeB] ∨
      [Action.readA, Action.writeA, Action.readB, Action.writeB] =
        [Action.readB, Action.writeB, Action.readA, Action.writeA]) ∧
    (runSched wSub1 wSub2 [Action.readA, Action.writeA, Action.readB, Action.writeB]
        (initConc emptyStore)).store.violations.map
      (fun r => r.warning_count) = [1, 2] :=
  ⟨by decide, by decide, Or.inl rfl,
   serial_schedules_yield_one_two wSub1 wSub2 "ABC123" (by decide) (by decide)
     [Action.readA, Action.writeA, Action.readB, Action.writeB] (Or.inl rfl)⟩

end Parking
